import Mathlib

/-!
Shallow embedding of `src/main.ts` of the cmpm-121-demo-3 geolocation game.

Geographic coordinates are modelled as exact rationals (the source uses JS
floating-point numbers; the algorithms are pure arithmetic on them).
JS `Math.round` is `⌊x + 1/2⌋` (round half toward +∞), modelled by `jsRound`.
-/

namespace Demo3

/-- `tileDegrees = 1e-4` (main.ts line 9). -/
def tileDegrees : ℚ := 1e-4

/-- `neighborhoodSize = 8` (main.ts line 10). -/
def neighborhoodSize : Nat := 8

/-- `cacheSpawnProbability = 0.1` (main.ts line 11). -/
def cacheSpawnProbability : ℚ := 0.1

/-- Latitude of `oakesClassroom`, the grid origin (main.ts line 8). -/
def oakesLat : ℚ := 36.98949379578401

/-- Longitude of `oakesClassroom` (main.ts line 8). -/
def oakesLng : ℚ := -122.06277128548504

/-- JS `Math.round`: rounds half toward positive infinity. -/
def jsRound (q : ℚ) : Int := ⌊q + 1/2⌋

/-- Modelled from the spec: the repository imports `luck` from `./luck.ts`,
a file that is not part of the sources. Spec §4.1: a pure, stable map from a
string key to a value in `[0,1)`; "implementers may use any stable
string-hash-to-float construction". We use a 31-ary polynomial string hash
reduced mod 1000 and scaled into `[0,1)`. -/
def strHash (s : String) : Nat :=
  s.data.foldl (fun h c => h * 31 + c.toNat) 7

/-- Modelled from the spec: `luck(key: string) -> float in [0,1)` (§4.1). -/
def luck (s : String) : ℚ :=
  ((strHash s % 1000 : Nat) : ℚ) / 1000

/-- Flyweight cell: an integer grid coordinate pair (main.ts lines 50-53). -/
structure Cell where
  i : Int
  j : Int
deriving DecidableEq, Repr

/-- A coin, identified by its cell of origin and a serial number
(main.ts lines 100-106). -/
structure Coin where
  cell : Cell
  serial : Nat
deriving DecidableEq, Repr

/-- The string identifier of a coin (main.ts lines 103-105). -/
def Coin.identifier (c : Coin) : String :=
  toString c.cell.i ++ ":" ++ toString c.cell.j ++ "#" ++ toString c.serial

/-- The flyweight registry `Cell.cellCache` (main.ts line 51): a growing map
from the key to the canonical `Cell` object. The JS key is the string
`i + ":" + j`, which is in bijection with the pair `(i, j)`; we key by the
pair directly. -/
abbrev Registry : Type := List ((Int × Int) × Cell)

/-- `cellCache.get(key)` composed with `has` (main.ts lines 60-63). -/
def regLookup (r : Registry) (i j : Int) : Option Cell :=
  (r.find? (fun e => decide (e.1 = (i, j)))).map (fun e => e.2)

/-- `Cell.fromCoordinates(i, j)` (main.ts lines 66-72): create the cell on
the first request, then always return the stored one. Returns the cell
together with the updated registry (state-passing for the static map). -/
def Cell.fromCoordinates (r : Registry) (i j : Int) : Cell × Registry :=
  match regLookup r i j with
  | some c => (c, r)
  | none => (Cell.mk i j, r ++ [((i, j), Cell.mk i j)])

/-- Grid index of a latitude: `Math.round((lat - origin.lat) / tileDegrees)`
(main.ts line 56). -/
def cellIndexFromLat (lat : ℚ) : Int :=
  jsRound ((lat - oakesLat) / tileDegrees)

/-- Grid index of a longitude (main.ts line 57). -/
def cellIndexFromLng (lng : ℚ) : Int :=
  jsRound ((lng - oakesLng) / tileDegrees)

/-- `Cell.fromLatLng(lat, lng)` (main.ts lines 55-64). -/
def Cell.fromLatLng (r : Registry) (lat lng : ℚ) : Cell × Registry :=
  Cell.fromCoordinates r (cellIndexFromLat lat) (cellIndexFromLng lng)

/-- `Cell.toLatLng()` (main.ts lines 87-92): the rectangle's origin corner. -/
def Cell.toLatLng (c : Cell) : ℚ × ℚ :=
  (oakesLat + c.i * tileDegrees, oakesLng + c.j * tileDegrees)

/-- Every entry of the JS registry stores, under key `(i, j)`, the cell that
was constructed for those coordinates. This holds by construction in the
source (the only insertions are in fromCoordinates / fromLatLng). -/
def RegistryWF (r : Registry) : Prop :=
  ∀ e ∈ r, e.2 = Cell.mk e.1.1 e.1.2

/-- The luck key `` `${cell.i},${cell.j}` `` used for the spawn trial
(main.ts lines 199 and 317). -/
def cellLuckKey (i j : Int) : String :=
  toString i ++ "," ++ toString j

/-- The luck key `[cell.i, cell.j, "initialValue"].toString()` used for the
initial coin count draw (main.ts line 112); JS array toString joins with
commas. -/
def initialValueKey (i j : Int) : String :=
  toString i ++ "," ++ toString j ++ ",initialValue"

/-- The Bernoulli spawn trial `luck(key) < cacheSpawnProbability`
(main.ts line 317). -/
def luckTrial (i j : Int) : Bool :=
  decide (luck (cellLuckKey i j) < cacheSpawnProbability)

/-- `Math.floor(luck(...) * 10) + 1` (main.ts lines 111-112). -/
def cacheCoinsCount (i j : Int) : Nat :=
  (⌊luck (initialValueKey i j) * 10⌋).toNat + 1

/-- The coin array built by `spawnCache` (main.ts lines 114-117):
`Array.from({length: n}, (_, index) => new Coin(cell, index))`. -/
def initialCoins (cell : Cell) : List Coin :=
  (List.range (cacheCoinsCount cell.i cell.j)).map (fun idx => Coin.mk cell idx)

/-- The world state store `cacheStates` (main.ts line 17): a `Map` from the
cell (canonical flyweight object, hence keyed here by the cell value) to the
saved coin list of its `CacheMemento`. -/
abbrev WorldMap : Type := List (Cell × List Coin)

/-- `cacheStates.get(cell)` (returning the memento's coin list). -/
def wsGet (m : WorldMap) (c : Cell) : Option (List Coin) :=
  (m.find? (fun e => decide (e.1 = c))).map (fun e => e.2)

/-- `cacheStates.has(cell)`. -/
def wsHas (m : WorldMap) (c : Cell) : Bool :=
  (wsGet m c).isSome

/-- `cacheStates.set(cell, coins)`: overwrite an existing entry, otherwise
append a new one. -/
def wsPut (m : WorldMap) (c : Cell) (coins : List Coin) : WorldMap :=
  if wsHas m c then
    m.map (fun e => if e.1 = c then (e.1, coins) else e)
  else
    m ++ [(c, coins)]

/-- The whole mutable game state of main.ts: `playerCoins` (line 15),
`playerPosition` (line 16), `cacheStates` (line 17), `movementHistory`
(line 18), and the set of cache rectangles currently on the map together
with the coin list captured by each rectangle's popup closure
(`displayed`). -/
structure GameState where
  playerCoins : Int
  playerPosition : ℚ × ℚ
  cacheStates : WorldMap
  movementHistory : List (ℚ × ℚ)
  displayed : List (Cell × List Coin)
deriving DecidableEq, Repr

/-- The state at script start (main.ts lines 14-18). -/
def initialState : GameState :=
  { playerCoins := 0
    playerPosition := (oakesLat, oakesLng)
    cacheStates := []
    movementHistory := []
    displayed := [] }

/-- `spawnCache(cell)` (main.ts lines 108-192): draws the coin count from
luck, builds the coin array, and adds a rectangle (with its popup closure
over that array) to the map. It does NOT touch `cacheStates`. -/
def spawnCache (cell : Cell) (st : GameState) : GameState :=
  { st with displayed := st.displayed ++ [(cell, initialCoins cell)] }

/-- `saveCacheState(cell)` (main.ts lines 288-293): reads
`cacheStates.get(cell)` and, only when an entry already exists, stores a
copied memento of it back. -/
def saveCacheState (cell : Cell) (st : GameState) : GameState :=
  match wsGet st.cacheStates cell with
  | some coins => { st with cacheStates := wsPut st.cacheStates cell coins }
  | none => st

/-- `restoreCacheState(cell)` (main.ts lines 295-301). -/
def restoreCacheState (st : GameState) (cell : Cell) : Option (List Coin) :=
  wsGet st.cacheStates cell

/-- The body of the nested loop of `regenerateCaches` (main.ts lines
313-329) at window offset `off` around `center`. -/
def regenStep (center : Cell) (st : GameState) (off : Int × Int) : GameState :=
  let cell := Cell.mk (center.i + off.1) (center.j + off.2)
  if ¬ (wsHas st.cacheStates cell = true) then
    if luckTrial cell.i cell.j then
      saveCacheState cell (spawnCache cell st)
    else st
  else
    match restoreCacheState st cell with
    | some _ => spawnCache cell st
    | none => st

/-- The window offsets `-8..8 × -8..8`, in loop order (main.ts lines
313-314). -/
def offsets : List (Int × Int) :=
  (List.range (2 * neighborhoodSize + 1)).flatMap (fun a =>
    (List.range (2 * neighborhoodSize + 1)).map (fun b =>
      ((a : Int) - 8, (b : Int) - 8)))

/-- `regenerateCaches(currentCell)` (main.ts lines 304-330): remove every
cache rectangle from the map, then run the spawn/restore decision for every
cell of the neighborhood window. -/
def regenerateCaches (center : Cell) (st : GameState) : GameState :=
  offsets.foldl (regenStep center) { st with displayed := [] }

/-- The collect button handler of a cache popup (main.ts lines 139-150),
acting on the player's purse and the popup closure's coin array; the `Bool`
reports acceptance (`alert("Collected successfully!")`) versus the
`alert("No coins left.")` rejection. -/
def collect (purse : Int) (coins : List Coin) : Int × List Coin × Bool :=
  if coins.length > 0 then
    (purse + (coins.length : Int), [], true)
  else
    (purse, coins, false)

/-- The deposit button handler (main.ts lines 153-176). The amount is
`parseInt(input.value || "0")`: `none` models a non-numeric input (NaN),
whose comparisons are all false; an empty input parses as 0. On success the
new coins get serials `coins.length + index` (the `Array.from` callback runs
before the push, so `coins.length` is the pre-deposit length throughout). -/
def deposit (cell : Cell) (purse : Int) (coins : List Coin)
    (amount : Option Int) : Int × List Coin × Bool :=
  match amount with
  | none => (purse, coins, false)
  | some a =>
    if purse ≥ a ∧ a > 0 then
      (purse - a,
       coins ++ (List.range a.toNat).map
         (fun idx => Coin.mk cell (coins.length + idx)),
       true)
    else (purse, coins, false)

/-- The `directions` table (main.ts lines 208-213), as (lat, lng) deltas. -/
def northDir : ℚ × ℚ := (tileDegrees, 0)

/-- `directions.south`. -/
def southDir : ℚ × ℚ := (-tileDegrees, 0)

/-- `directions.east`. -/
def eastDir : ℚ × ℚ := (0, tileDegrees)

/-- `directions.west`. -/
def westDir : ℚ × ℚ := (0, -tileDegrees)

/-- `movePlayer(direction)` (main.ts lines 216-237): shift the position by
the direction delta, regenerate caches around the new containing cell
(whose canonical flyweight value is `Cell.mk (cellIndexFromLat lat)
(cellIndexFromLng lng)`, see `Cell.fromCoordinates_fst_of_wf`), then append
the new position to the movement history. -/
def movePlayer (d : ℚ × ℚ) (st : GameState) : GameState :=
  let newPos : ℚ × ℚ :=
    (st.playerPosition.1 + d.1, st.playerPosition.2 + d.2)
  let st1 := { st with playerPosition := newPos }
  let newCell := Cell.mk (cellIndexFromLat newPos.1) (cellIndexFromLng newPos.2)
  let st2 := regenerateCaches newCell st1
  { st2 with movementHistory := st2.movementHistory ++ [newPos] }

/-- The window cell at offset `off` from `center` (main.ts line 315). -/
def cellOf (center : Cell) (off : Int × Int) : Cell :=
  Cell.mk (center.i + off.1) (center.j + off.2)

/-- The displayed entry `spawnCache` produces for a window cell. -/
def displayEntry (center : Cell) (off : Int × Int) : Cell × List Coin :=
  (cellOf center off, initialCoins (cellOf center off))

/-- Whether the loop body of `regenerateCaches` displays the window cell at
`off`: previously recorded cells are always re-displayed, otherwise the
spawn trial decides. -/
def willDisplay (m : WorldMap) (center : Cell) (off : Int × Int) : Bool :=
  wsHas m (cellOf center off) ||
    luckTrial (cellOf center off).i (cellOf center off).j

end Demo3

namespace Demo3

/-- A single regeneration loop step only appends (at most) one displayed
entry; it never changes `cacheStates` (the `saveCacheState` call happens
only in the branch where the store has no entry for the cell, where it
reads `none` and does nothing). -/
theorem regenStep_eq (center : Cell) (st : GameState) (off : Int × Int) :
    regenStep center st off =
      { st with displayed := st.displayed ++
          (if willDisplay st.cacheStates center off then
            [displayEntry center off] else []) } := by
  unfold regenStep willDisplay displayEntry
  rcases h : wsGet st.cacheStates (cellOf center off) with _ | coins
  · have hhas : wsHas st.cacheStates (cellOf center off) = false := by
      simp [wsHas, h]
    simp only [cellOf] at h hhas ⊢
    rcases ht : luckTrial (center.i + off.1) (center.j + off.2) with _ | _
    · simp [hhas, ht]
    · simp only [hhas, ht, Bool.false_or, if_true, Bool.not_eq_true,
        Bool.false_eq_true, not_false_eq_true, if_pos]
      unfold saveCacheState spawnCache
      simp [h]
  · have hhas : wsHas st.cacheStates (cellOf center off) = true := by
      simp [wsHas, h]
    simp only [cellOf] at h hhas ⊢
    simp [hhas, restoreCacheState, h, spawnCache]

/-- Folding the regeneration step over a list of offsets appends exactly
the entries of the offsets that pass `willDisplay`, judged against the
(unchanged) world state store of the starting state. -/
theorem foldl_regenStep (center : Cell) (offs : List (Int × Int))
    (st : GameState) :
    offs.foldl (regenStep center) st =
      { st with displayed := (st.displayed ++
          (offs.filter (willDisplay st.cacheStates center)).map
            (displayEntry center)) } := by
  induction offs generalizing st with
  | nil => simp
  | cons o os ih =>
    rw [List.foldl_cons, ih, regenStep_eq]
    rcases h : willDisplay st.cacheStates center o with _ | _
    · simp [List.filter_cons, h]
    · simp [List.filter_cons, h]

/-- `regenerateCaches` clears the display, re-displays exactly the window
cells passing `willDisplay`, and leaves every other state component —
including the world state store — unchanged. -/
theorem regenerateCaches_eq (center : Cell) (st : GameState) :
    regenerateCaches center st =
      { st with displayed :=
          ((offsets.filter (willDisplay st.cacheStates center)).map
            (displayEntry center)) } := by
  unfold regenerateCaches
  rw [foldl_regenStep]
  simp

/-- In a well-formed registry, `fromCoordinates` always returns the cell
value `Cell.mk i j` (the canonical flyweight for `(i, j)`). -/
theorem Cell.fromCoordinates_fst_of_wf (r : Registry) (hr : RegistryWF r)
    (i j : Int) : (Cell.fromCoordinates r i j).1 = Cell.mk i j := by
  unfold Cell.fromCoordinates
  rcases h : regLookup r i j with _ | c
  · rfl
  · unfold regLookup at h
    rcases hf : r.find? (fun e => decide (e.1 = (i, j))) with _ | e
    · rw [hf] at h
      simp at h
    · rw [hf] at h
      simp at h
      have hmem := List.mem_of_find?_eq_some hf
      have hpred := List.find?_some hf
      simp only [decide_eq_true_eq] at hpred
      have hwf := hr e hmem
      rw [← h, hwf, hpred]

/-- `fromCoordinates` preserves registry well-formedness. -/
theorem RegistryWF.fromCoordinates {r : Registry} (hr : RegistryWF r)
    (i j : Int) : RegistryWF (Cell.fromCoordinates r i j).2 := by
  unfold Cell.fromCoordinates
  rcases h : regLookup r i j with _ | c
  · intro e he
    rcases List.mem_append.1 he with h1 | h1
    · exact hr e h1
    · simp only [List.mem_singleton] at h1
      subst h1
      rfl
  · exact hr

/-- The grid index of the latitude of a cell's corner coordinate is the
cell's `i`: the rational arithmetic is exact and `jsRound` fixes
integers. -/
theorem cellIndexFromLat_toLatLng (i j : Int) :
    cellIndexFromLat ((Cell.mk i j).toLatLng).1 = i := by
  unfold cellIndexFromLat Cell.toLatLng jsRound
  have h : (oakesLat + (i : ℚ) * tileDegrees - oakesLat) / tileDegrees
      = (i : ℚ) := by
    rw [add_sub_cancel_left]
    rw [mul_div_assoc, div_self (by norm_num [tileDegrees]), mul_one]
  simp only [h]
  rw [Int.floor_int_add]
  norm_num

/-- Longitude version of `cellIndexFromLat_toLatLng`. -/
theorem cellIndexFromLng_toLatLng (i j : Int) :
    cellIndexFromLng ((Cell.mk i j).toLatLng).2 = j := by
  unfold cellIndexFromLng Cell.toLatLng jsRound
  have h : (oakesLng + (j : ℚ) * tileDegrees - oakesLng) / tileDegrees
      = (j : ℚ) := by
    rw [add_sub_cancel_left]
    rw [mul_div_assoc, div_self (by norm_num [tileDegrees]), mul_one]
  simp only [h]
  rw [Int.floor_int_add]
  norm_num

set_option maxRecDepth 4000 in
/-- The 17×17 window offsets are pairwise distinct. -/
theorem offsets_nodup : offsets.Nodup := by decide

/-- Distinct window offsets address distinct cells. -/
theorem cellOf_injective (center : Cell) :
    Function.Injective (cellOf center) := by
  intro a b h
  unfold cellOf at h
  rcases a with ⟨a1, a2⟩
  rcases b with ⟨b1, b2⟩
  simp only [Cell.mk.injEq] at h
  have h1 : a1 = b1 := by omega
  have h2 : a2 = b2 := by omega
  rw [h1, h2]

/-- `movePlayer` shifts the position by exactly the direction delta. -/
theorem movePlayer_playerPosition (d : ℚ × ℚ) (st : GameState) :
    (movePlayer d st).playerPosition
      = (st.playerPosition.1 + d.1, st.playerPosition.2 + d.2) := by
  simp [movePlayer, regenerateCaches_eq]

/-- `movePlayer` appends exactly the new position to the history. -/
theorem movePlayer_movementHistory (d : ℚ × ℚ) (st : GameState) :
    (movePlayer d st).movementHistory
      = st.movementHistory ++
          [(st.playerPosition.1 + d.1, st.playerPosition.2 + d.2)] := by
  simp [movePlayer, regenerateCaches_eq]

/-- C1: the claim states that when the regeneration loop's Bernoulli trial
succeeds for an undecided cell, the spawned cache's coin state is recorded
into the world state store, so that `has(cell)` is true immediately
afterwards. The code records nothing: `spawnCache` never stores the cache
into `cacheStates`, and `saveCacheState` reads `cacheStates.get(cell)` and
does nothing when there is no entry — so regeneration leaves `cacheStates`,
and with it `has`, completely unchanged, and `has(cell)` stays false for a
freshly spawned cell. -/
theorem C1_regeneration_records_nothing (center : Cell) (st : GameState)
    (c : Cell) :
    (regenerateCaches center st).cacheStates = st.cacheStates ∧
    wsHas (regenerateCaches center st).cacheStates c
      = wsHas st.cacheStates c := by
  rw [regenerateCaches_eq]
  exact ⟨rfl, rfl⟩

/-- C2: the claim states that a spawned-then-fully-collected cache is later
re-displayed with an empty coin list and its coins are never re-drawn from
the deterministic random source. In the code a collected cache is never in
`cacheStates` (nothing is ever recorded there), so any regeneration
covering a cell whose trial succeeds re-displays it with a freshly re-drawn
non-empty coin list `initialCoins`, drawn again from luck. -/
theorem C2_regeneration_redraws_coins (st : GameState) (cell : Cell)
    (hns : wsHas st.cacheStates cell = false)
    (ht : luckTrial cell.i cell.j = true) :
    (cell, initialCoins cell) ∈ (regenerateCaches cell st).displayed ∧
    1 ≤ (initialCoins cell).length := by
  constructor
  · rw [regenerateCaches_eq]
    have h00 : ((0 : Int), (0 : Int)) ∈ offsets := by decide
    have hcell : cellOf cell (0, 0) = cell := by
      cases cell
      simp [cellOf]
    refine List.mem_map.2
      ⟨((0 : Int), (0 : Int)), List.mem_filter.2 ⟨h00, ?_⟩, ?_⟩
    · unfold willDisplay
      rw [hcell, hns, ht]
      decide
    · unfold displayEntry
      rw [hcell]
  · simp [initialCoins, cacheCoinsCount]

/-- Witness for C2 at a concrete failing input: the fresh initial state and
the cell (0,0), whose spawn trial succeeds. -/
theorem C2_regeneration_redraws_coins_witness :
    (Cell.mk 0 0, initialCoins (Cell.mk 0 0))
        ∈ (regenerateCaches (Cell.mk 0 0) initialState).displayed ∧
    1 ≤ (initialCoins (Cell.mk 0 0)).length :=
  C2_regeneration_redraws_coins initialState (Cell.mk 0 0)
    (by decide) (by with_unfolding_all rfl)

/-- C3: for every center cell, regenerating twice in succession with
nothing in between produces the same visible cache set both times, displays
no cell twice, and leaves every coin list stored in the world state store
unchanged. -/
theorem C3_regenerate_twice_idempotent (center : Cell) (st : GameState) :
    (regenerateCaches center (regenerateCaches center st)).displayed
      = (regenerateCaches center st).displayed ∧
    ((regenerateCaches center st).displayed.map Prod.fst).Nodup ∧
    (regenerateCaches center (regenerateCaches center st)).cacheStates
      = (regenerateCaches center st).cacheStates ∧
    (regenerateCaches center st).cacheStates = st.cacheStates := by
  have hcs : ∀ s : GameState,
      (regenerateCaches center s).cacheStates = s.cacheStates := by
    intro s
    rw [regenerateCaches_eq]
  refine ⟨?_, ?_, hcs _, hcs _⟩
  · simp only [regenerateCaches_eq]
  · rw [regenerateCaches_eq]
    simp only [List.map_map]
    have hco : Prod.fst ∘ displayEntry center = cellOf center := rfl
    rw [hco]
    exact List.Nodup.map (cellOf_injective center)
      (List.Nodup.filter _ offsets_nodup)

/-- C4: collecting a cache of 5 coins adds 5 to the purse and empties the
cache; a second collect is rejected as a no-op and changes nothing. -/
theorem C4_collect_five (purse : Int) (coins : List Coin)
    (h : coins.length = 5) :
    collect purse coins = (purse + 5, [], true) ∧
    collect (collect purse coins).1 (collect purse coins).2.1
      = (purse + 5, [], false) := by
  have h1 : collect purse coins = (purse + 5, [], true) := by
    simp [collect, h]
  refine ⟨h1, ?_⟩
  rw [h1]
  simp [collect]

/-- Witness for C4 with a concrete 5-coin cache and an empty purse. -/
theorem C4_collect_five_witness :
    collect 0 (List.replicate 5 (Coin.mk (Cell.mk 0 0) 0))
        = (0 + 5, [], true) ∧
    collect (collect 0 (List.replicate 5 (Coin.mk (Cell.mk 0 0) 0))).1
        (collect 0 (List.replicate 5 (Coin.mk (Cell.mk 0 0) 0))).2.1
      = (0 + 5, [], false) :=
  C4_collect_five 0 (List.replicate 5 (Coin.mk (Cell.mk 0 0) 0)) (by simp)

/-- C5: a deposit of 3 with purse 10 leaves the purse at 7 and adds exactly
3 coins to the cache; a deposit of 20 with purse 7, a non-positive amount,
or a non-numeric amount (NaN) is rejected with purse and cache completely
unchanged — apply-or-reject, never a partial application. -/
theorem C5_deposit_behavior (cell : Cell) (coins : List Coin) (purse : Int)
    (amt : Int) (hamt : amt ≤ 0) :
    (deposit cell 10 coins (some 3)).1 = 7 ∧
    (deposit cell 10 coins (some 3)).2.1.length = coins.length + 3 ∧
    deposit cell 7 coins (some 20) = (7, coins, false) ∧
    deposit cell purse coins (some amt) = (purse, coins, false) ∧
    deposit cell purse coins none = (purse, coins, false) := by
  refine ⟨?_, ?_, ?_, ?_, rfl⟩
  · norm_num [deposit]
  · norm_num [deposit]
    decide
  · norm_num [deposit]
  · simp only [deposit]
    rw [if_neg (by omega)]

/-- Witness for C5 at concrete inputs (amount 0 for the non-positive
rejection). -/
theorem C5_deposit_behavior_witness :
    (deposit (Cell.mk 0 0) 10 [] (some 3)).1 = 7 ∧
    (deposit (Cell.mk 0 0) 10 [] (some 3)).2.1.length
      = ([] : List Coin).length + 3 ∧
    deposit (Cell.mk 0 0) 7 [] (some 20) = (7, [], false) ∧
    deposit (Cell.mk 0 0) 0 [] (some 0) = (0, [], false) ∧
    deposit (Cell.mk 0 0) 0 [] none = (0, [], false) :=
  C5_deposit_behavior (Cell.mk 0 0) [] 0 0 (by norm_num)

/-- C6: for every cell `(i, j)` of a well-formed flyweight registry,
converting the cell's geographic corner coordinate back to a cell is the
identity: `fromLatLng` applied to `toLatLng` of the cell obtained by
`fromCoordinates` returns that same cell. -/
theorem C6_grid_geo_roundTrip (r : Registry) (hr : RegistryWF r)
    (i j : Int) :
    (Cell.fromLatLng (Cell.fromCoordinates r i j).2
        ((Cell.fromCoordinates r i j).1.toLatLng).1
        ((Cell.fromCoordinates r i j).1.toLatLng).2).1
      = (Cell.fromCoordinates r i j).1 := by
  have h1 := Cell.fromCoordinates_fst_of_wf r hr i j
  have h2 := RegistryWF.fromCoordinates hr i j
  rw [h1]
  unfold Cell.fromLatLng
  rw [cellIndexFromLat_toLatLng, cellIndexFromLng_toLatLng]
  exact Cell.fromCoordinates_fst_of_wf _ h2 i j

/-- Witness for C6 at the empty registry and cell (2, -3). -/
theorem C6_grid_geo_roundTrip_witness :
    (Cell.fromLatLng (Cell.fromCoordinates [] 2 (-3)).2
        ((Cell.fromCoordinates [] 2 (-3)).1.toLatLng).1
        ((Cell.fromCoordinates [] 2 (-3)).1.toLatLng).2).1
      = (Cell.fromCoordinates [] 2 (-3)).1 :=
  C6_grid_geo_roundTrip [] (by simp [RegistryWF]) 2 (-3)

/-- C7: three north moves from the origin state land the player at
`(lat0 + 3·tileDegrees, lng0)` with `tileDegrees = 1e-4`, the movement
history then has exactly 3 entries, and in general every move appends
exactly one entry to the history. -/
theorem C7_move_north_three :
    (movePlayer northDir (movePlayer northDir (movePlayer northDir
        initialState))).playerPosition
      = (oakesLat + 3 * tileDegrees, oakesLng) ∧
    (movePlayer northDir (movePlayer northDir (movePlayer northDir
        initialState))).movementHistory.length = 3 ∧
    ∀ (d : ℚ × ℚ) (st : GameState),
      (movePlayer d st).movementHistory.length
        = st.movementHistory.length + 1 := by
  refine ⟨?_, ?_, ?_⟩
  · rw [movePlayer_playerPosition, movePlayer_playerPosition,
      movePlayer_playerPosition]
    simp [initialState, northDir]
    ring
  · rw [movePlayer_movementHistory, movePlayer_movementHistory,
      movePlayer_movementHistory]
    simp [initialState]
  · intro d st
    rw [movePlayer_movementHistory]
    simp

/-- C8: the flyweight registry hands out canonical identities: a repeated
request for the same `(i, j)` returns the very cell stored by the first
request and allocates nothing new, and the registry only ever grows by
appending — it never discards a cell. -/
theorem C8_flyweight_identity (r : Registry) (i j : Int) :
    (Cell.fromCoordinates (Cell.fromCoordinates r i j).2 i j).1
      = (Cell.fromCoordinates r i j).1 ∧
    (Cell.fromCoordinates (Cell.fromCoordinates r i j).2 i j).2
      = (Cell.fromCoordinates r i j).2 ∧
    ∃ ext, (Cell.fromCoordinates r i j).2 = r ++ ext := by
  unfold Cell.fromCoordinates
  rcases h : regLookup r i j with _ | c
  · have h2 : regLookup (r ++ [((i, j), Cell.mk i j)]) i j
        = some (Cell.mk i j) := by
      unfold regLookup at h ⊢
      have hn : r.find? (fun e => decide (e.1 = (i, j))) = none := by
        rcases hf : r.find? (fun e => decide (e.1 = (i, j))) with _ | e
        · exact hf
        · rw [hf] at h
          simp at h
      rw [List.find?_append, hn]
      simp
    simp only [h2]
    exact ⟨trivial, trivial, [((i, j), Cell.mk i j)], rfl⟩
  · simp only [h]
    exact ⟨trivial, trivial, [], by simp⟩

/-- C9: `luck` is a pure function of its key — repeated evaluation yields
the same value — and its value always lies in the half-open interval
`[0, 1)`. (The generator is spec-modelled: `luck.ts` is not among the
sources.) -/
theorem C9_luck_pure_and_in_range (k : String) :
    luck k = luck k ∧ 0 ≤ luck k ∧ luck k < 1 := by
  refine ⟨rfl, ?_, ?_⟩
  · unfold luck
    positivity
  · unfold luck
    rw [div_lt_one (by norm_num)]
    exact_mod_cast Nat.mod_lt (strHash k) (by norm_num)

/-- C10: a successful deposit of `k` coins into a cache holding `n` coins
assigns the new coins serials `n, n+1, …, n+k-1` (based on the pre-deposit
count); after a full collect empties the cache, a subsequent deposit reuses
serials starting from 0, so the spawned coin with serial 0 and the
re-deposited coin carry the identical `(cellI, cellJ, serial)` identity. -/
theorem C10_deposit_serial_reuse (cell : Cell) (purse : Int)
    (coins : List Coin) (k : Int) (hk : 0 < k) (hkp : k ≤ purse)
    (hne : coins ≠ []) :
    (deposit cell purse coins (some k)).2.1
        = coins ++ (List.range k.toNat).map
            (fun idx => Coin.mk cell (coins.length + idx)) ∧
    (deposit cell (collect purse coins).1 (collect purse coins).2.1
        (some k)).2.1
      = (List.range k.toNat).map (fun idx => Coin.mk cell idx) ∧
    Coin.mk cell 0 ∈ (deposit cell (collect purse coins).1
        (collect purse coins).2.1 (some k)).2.1 := by
  have hlen : coins.length > 0 := List.length_pos.2 hne
  have hcol : collect purse coins
      = (purse + (coins.length : Int), [], true) := by
    unfold collect
    rw [if_pos hlen]
  have h2 : (deposit cell (collect purse coins).1
      (collect purse coins).2.1 (some k)).2.1
      = (List.range k.toNat).map (fun idx => Coin.mk cell idx) := by
    rw [hcol]
    simp only [deposit]
    rw [if_pos ⟨by omega, hk⟩]
    simp
  refine ⟨?_, h2, ?_⟩
  · simp only [deposit]
    rw [if_pos ⟨hkp, hk⟩]
  · rw [h2]
    exact List.mem_map.2 ⟨0, List.mem_range.2 (by omega), rfl⟩

/-- Witness for C10: purse 10, a cache holding the spawned coin of serial
0, deposit of 2 coins after a full collect. -/
theorem C10_deposit_serial_reuse_witness :
    (deposit (Cell.mk 0 0) 10 [Coin.mk (Cell.mk 0 0) 0]
        (some 2)).2.1
        = [Coin.mk (Cell.mk 0 0) 0] ++ (List.range (2 : Int).toNat).map
            (fun idx =>
              Coin.mk (Cell.mk 0 0) ([Coin.mk (Cell.mk 0 0) 0].length + idx)) ∧
    (deposit (Cell.mk 0 0) (collect 10 [Coin.mk (Cell.mk 0 0) 0]).1
        (collect 10 [Coin.mk (Cell.mk 0 0) 0]).2.1 (some 2)).2.1
      = (List.range (2 : Int).toNat).map
          (fun idx => Coin.mk (Cell.mk 0 0) idx) ∧
    Coin.mk (Cell.mk 0 0) 0
        ∈ (deposit (Cell.mk 0 0) (collect 10 [Coin.mk (Cell.mk 0 0) 0]).1
            (collect 10 [Coin.mk (Cell.mk 0 0) 0]).2.1 (some 2)).2.1 :=
  C10_deposit_serial_reuse (Cell.mk 0 0) 10 [Coin.mk (Cell.mk 0 0) 0] 2
    (by norm_num) (by norm_num) (by simp)

end Demo3
